import Mathlib

/-!
Verification of the skenario discrete-event simulator core against its
natural-language specification.  Times and durations are nanosecond
integers (Go `time.Time.UnixNano` / `time.Duration`).  The replica's
request-processing stock (pkg/model/requests_processing.go, the variant
with sliding-window CPU usage), the movement priority queue, the
autoscaler ticktock stock and the CPU-usage window are embedded as pure
Lean functions over explicit state.
-/

namespace Skenario

/-- Nanosecond timestamp, as produced by Go `time.Time.UnixNano`. -/
abbrev Time := Int

/-- Nanosecond duration, as in Go `time.Duration`. -/
abbrev Duration := Int

/-! ## Request entities (src/pkg/model/request_entity.go, joe/plugin side)

A `requestEntity` is shared by reference between stocks; here the mutable
fields live in a map from request number to `Req`, and stocks hold request
numbers. -/

/-- Mutable per-request state: `cpuSecondsRequired`, `cpuSecondsConsumed`,
`startTime`. -/
structure Req where
  cpuSecondsRequired : Duration
  cpuSecondsConsumed : Duration
  startTime : Option Time
  deriving DecidableEq, Repr

instance : Inhabited Req := ⟨⟨0, 0, none⟩⟩

/-- cpuSecondsRemaining returns `cpuSecondsRequired - cpuSecondsConsumed`
(request_entity.go lines 99-101). -/
def cpuSecondsRemaining (r : Req) : Duration :=
  r.cpuSecondsRequired - r.cpuSecondsConsumed

/-- The 200ms scheduling quantum of the replica CPU, in nanoseconds. -/
def quantumNs : Duration := 200000000

/-! ## The requests-processing stock (requests_processing.go) -/

/-- Stock endpoints that movements scheduled by the processing stock refer
to: the processing stock itself, its onCpu sub-stock, and the completion
sink. -/
inductive RpsLoc
  | procStock
  | onCpuSub
  | completeSink
  deriving DecidableEq, Repr

/-- A movement scheduled via `env.AddToSchedule` by the processing stock:
kind label, occurrence time, source and destination stocks. -/
structure RpsMovement where
  kind : String
  occursAt : Time
  src : RpsLoc
  dst : RpsLoc
  deriving DecidableEq, Repr

/-- State of a `requestsProcessingStock`.  The three internal sub-stocks
are modelled from the spec: `simulator.NewThroughStock` is not among the
sources, and spec section 4.2 fixes the through-stock discipline to FIFO
(Add appends, Remove pops the head, Count is the length).  `reqs` maps
request numbers to the shared request entities; `cpuSlices` is the
`cpuUsage.activeTimeSlices` interval log. -/
structure RPSState where
  reqs : Nat → Req
  active : List Nat
  onCpu : List Nat
  terminated : List Nat
  cpuSlices : List (Time × Time)

/-- Update the shared entity of request `i`. -/
def setReq (s : RPSState) (i : Nat) (r : Req) : RPSState :=
  { s with reqs := fun n => if n = i then r else s.reqs n }

/-- Add, first phase (lines 119-122): if `req.startTime` is nil, set it to
the current movement time. -/
def rpsSetStart (now : Time) (e : Nat) (s : RPSState) : RPSState :=
  match (s.reqs e).startTime with
  | none => setReq s e { s.reqs e with startTime := some now }
  | some _ => s

/-- Add, second phase (lines 124-143): enqueue or complete the request.
A request with positive remaining CPU is appended to `processesActive`;
otherwise it is appended to `processesTerminated` and a `complete_request`
movement from this stock to the completion sink is scheduled at
`now + 1ns`. -/
def rpsEnqueue (now : Time) (e : Nat) (s : RPSState) :
    RPSState × List RpsMovement :=
  if 0 < cpuSecondsRemaining (s.reqs e) then
    ({ s with active := s.active ++ [e] }, [])
  else
    ({ s with terminated := s.terminated ++ [e] },
     [⟨"complete_request", now + 1, RpsLoc.procStock, RpsLoc.completeSink⟩])

/-- Add, third phase (lines 146-162): fill the CPU and schedule an
interrupt.  When `processesOnCpu` is empty and `processesActive` is not,
the head of `processesActive` is removed into a local `req`, the quantum
`min(cpuSecondsRemaining(req), 200ms)` is added to `req.cpuSecondsConsumed`,
an `interrupt_process` movement from `processesOnCpu` back to this stock is
scheduled at `now + quantum`, the interval `[now, now+quantum]` is recorded
in `cpuUsage` — and then the code executes `processesOnCpu.Add(entity)`,
placing the *argument* of Add on the CPU, not the popped `req`. -/
def rpsFillCpu (now : Time) (e : Nat) (s : RPSState) :
    RPSState × List RpsMovement :=
  if s.onCpu = [] then
    match s.active with
    | [] => (s, [])
    | h :: rest =>
      let r := s.reqs h
      let q := min (cpuSecondsRemaining r) quantumNs
      let interruptAt := now + q
      let s1 := setReq { s with active := rest } h
        { r with cpuSecondsConsumed := r.cpuSecondsConsumed + q }
      ({ s1 with
          onCpu := s.onCpu ++ [e],
          cpuSlices := s.cpuSlices ++ [(now, interruptAt)] },
       [⟨"interrupt_process", interruptAt, RpsLoc.onCpuSub, RpsLoc.procStock⟩])
  else (s, [])

/-- requestsProcessingStock.Add for a request entity, returning the new
state and the movements handed to `env.AddToSchedule`, in order. -/
def rpsAdd (now : Time) (e : Nat) (s : RPSState) :
    RPSState × List RpsMovement :=
  let s0 := rpsSetStart now e s
  let p1 := rpsEnqueue now e s0
  let p2 := rpsFillCpu now e p1.1
  (p2.1, p1.2 ++ p2.2)

/-- requestsProcessingStock.Remove (lines 104-109): drains from
`processesTerminated` only, returning nil when it is empty. -/
def rpsRemove (s : RPSState) : Option Nat × RPSState :=
  match s.terminated with
  | h :: t => (some h, { s with terminated := t })
  | [] => (none, s)

/-- requestsProcessingStock.Count (lines 93-95): the sum of the counts of
`processesActive` and `processesOnCpu` (and nothing else). -/
def rpsCount (s : RPSState) : Nat :=
  s.active.length + s.onCpu.length

/-- Request numbers of the entities the stock currently holds across all
three internal sub-stocks (entities enter via Add and leave only via
Remove, which drains `processesTerminated`). -/
def rpsHoldings (s : RPSState) : List Nat :=
  s.active ++ s.onCpu ++ s.terminated

/-- requestsProcessingStock.EntitiesInStock (lines 97-102): a slice made
with `make([]*Entity, active.Count()+onCpu.Count())` — that many nil
pointers — to which the entity references of `processesActive` and
`processesOnCpu` are appended. -/
def rpsEntitiesInStock (s : RPSState) : List (Option Nat) :=
  List.replicate (s.active.length + s.onCpu.length) none
    ++ s.active.map some ++ s.onCpu.map some

/-! ## Kernel-visible steps on one replica's processing stock

A movement executes as `From.Remove()` then `To.Add(e)`.  The movements
that touch a given processing stock are: admission of a request from the
routing stock (`To` is the processing stock), `interrupt_process`
(`From = processesOnCpu`, `To` = the processing stock) and
`complete_request` (`From` = the processing stock, which drains
`processesTerminated`). -/

/-- One kernel step on the processing-stock state. -/
inductive RpsStep : RPSState → RPSState → Prop
  | admission (now : Time) (e : Nat) (s : RPSState) :
      RpsStep s (rpsAdd now e s).1
  | interrupt (now : Time) (h : Nat) (t : List Nat) (s : RPSState)
      (hc : s.onCpu = h :: t) :
      RpsStep s (rpsAdd now h { s with onCpu := t }).1
  | complete (s : RPSState) :
      RpsStep s (rpsRemove s).2

/-- Reachability between processing-stock states. -/
def RpsReach : RPSState → RPSState → Prop :=
  Relation.ReflTransGen RpsStep

/-! ## Basic facts about the Add phases -/

theorem rpsSetStart_active (now : Time) (e : Nat) (s : RPSState) :
    (rpsSetStart now e s).active = s.active := by
  unfold rpsSetStart
  cases h : (s.reqs e).startTime <;> simp [setReq]

theorem rpsSetStart_onCpu (now : Time) (e : Nat) (s : RPSState) :
    (rpsSetStart now e s).onCpu = s.onCpu := by
  unfold rpsSetStart
  cases h : (s.reqs e).startTime <;> simp [setReq]

theorem rpsSetStart_terminated (now : Time) (e : Nat) (s : RPSState) :
    (rpsSetStart now e s).terminated = s.terminated := by
  unfold rpsSetStart
  cases h : (s.reqs e).startTime <;> simp [setReq]

theorem rpsSetStart_consumed (now : Time) (e n : Nat) (s : RPSState) :
    ((rpsSetStart now e s).reqs n).cpuSecondsConsumed =
      (s.reqs n).cpuSecondsConsumed := by
  unfold rpsSetStart
  cases h : (s.reqs e).startTime
  · simp only [setReq]
    by_cases hn : n = e <;> simp [hn, h]
  · rfl

theorem rpsSetStart_required (now : Time) (e n : Nat) (s : RPSState) :
    ((rpsSetStart now e s).reqs n).cpuSecondsRequired =
      (s.reqs n).cpuSecondsRequired := by
  unfold rpsSetStart
  cases h : (s.reqs e).startTime
  · simp only [setReq]
    by_cases hn : n = e <;> simp [hn, h]
  · rfl

theorem rpsSetStart_remaining (now : Time) (e n : Nat) (s : RPSState) :
    cpuSecondsRemaining ((rpsSetStart now e s).reqs n) =
      cpuSecondsRemaining (s.reqs n) := by
  unfold cpuSecondsRemaining
  rw [rpsSetStart_consumed, rpsSetStart_required]

theorem rpsEnqueue_reqs (now : Time) (e : Nat) (s : RPSState) :
    (rpsEnqueue now e s).1.reqs = s.reqs := by
  unfold rpsEnqueue
  split <;> rfl

theorem rpsEnqueue_onCpu (now : Time) (e : Nat) (s : RPSState) :
    (rpsEnqueue now e s).1.onCpu = s.onCpu := by
  unfold rpsEnqueue
  split <;> rfl

theorem rpsFillCpu_terminated (now : Time) (e : Nat) (s : RPSState) :
    (rpsFillCpu now e s).1.terminated = s.terminated := by
  unfold rpsFillCpu
  split
  · cases hA : s.active <;> simp [setReq]
  · rfl

theorem rpsFillCpu_onCpu (now : Time) (e : Nat) (s : RPSState) :
    (rpsFillCpu now e s).1.onCpu = s.onCpu ∨
      (s.onCpu = [] ∧ (rpsFillCpu now e s).1.onCpu = [e]) := by
  unfold rpsFillCpu
  split
  · rename_i hEmpty
    cases hA : s.active
    · exact Or.inl rfl
    · exact Or.inr ⟨hEmpty, by simp [setReq, hEmpty]⟩
  · exact Or.inl rfl

/-- C2: requestsProcessingStock.Add routes a request with positive
remaining CPU into `processesActive`, and a finished request into
`processesTerminated` together with a `complete_request` movement from
this stock to the completion sink at `now + 1ns`. -/
theorem c2_admission_branches (now : Time) (e : Nat) (s : RPSState) :
    (0 < cpuSecondsRemaining (s.reqs e) →
      rpsEnqueue now e s = ({ s with active := s.active ++ [e] }, []) ∧
      (rpsAdd now e s).1.terminated = s.terminated) ∧
    (cpuSecondsRemaining (s.reqs e) ≤ 0 →
      rpsEnqueue now e s =
        ({ s with terminated := s.terminated ++ [e] },
         [⟨"complete_request", now + 1, RpsLoc.procStock, RpsLoc.completeSink⟩]) ∧
      (rpsAdd now e s).1.terminated = s.terminated ++ [e] ∧
      (⟨"complete_request", now + 1, RpsLoc.procStock, RpsLoc.completeSink⟩ :
        RpsMovement) ∈ (rpsAdd now e s).2) := by
  constructor
  · intro h
    constructor
    · unfold rpsEnqueue
      rw [if_pos h]
    · show (rpsFillCpu now e (rpsEnqueue now e (rpsSetStart now e s)).1).1.terminated
        = s.terminated
      rw [rpsFillCpu_terminated]
      have h' : 0 < cpuSecondsRemaining ((rpsSetStart now e s).reqs e) := by
        rw [rpsSetStart_remaining]; exact h
      unfold rpsEnqueue
      rw [if_pos h']
      exact rpsSetStart_terminated now e s
  · intro h
    have h' : ¬ 0 < cpuSecondsRemaining ((rpsSetStart now e s).reqs e) := by
      rw [rpsSetStart_remaining]; exact not_lt.mpr h
    have hEnq : rpsEnqueue now e (rpsSetStart now e s) =
        ({ rpsSetStart now e s with
            terminated := (rpsSetStart now e s).terminated ++ [e] },
         [⟨"complete_request", now + 1, RpsLoc.procStock, RpsLoc.completeSink⟩]) := by
      unfold rpsEnqueue
      rw [if_neg h']
    refine ⟨?_, ?_, ?_⟩
    · unfold rpsEnqueue
      rw [if_neg (not_lt.mpr h)]
    · show (rpsFillCpu now e (rpsEnqueue now e (rpsSetStart now e s)).1).1.terminated
        = s.terminated ++ [e]
      rw [rpsFillCpu_terminated, hEnq]
      simp [rpsSetStart_terminated]
    · show _ ∈ (rpsEnqueue now e (rpsSetStart now e s)).2 ++
        (rpsFillCpu now e (rpsEnqueue now e (rpsSetStart now e s)).1).2
      rw [hEnq]
      simp

/-! ## Reachability invariants: CPU budget (C3) and CPU singleton (C4) -/

/-- The CPU-budget invariant of spec I6: every request has
`cpuSecondsConsumed ≤ cpuSecondsRequired`. -/
def ReqInv (s : RPSState) : Prop :=
  ∀ n, (s.reqs n).cpuSecondsConsumed ≤ (s.reqs n).cpuSecondsRequired

theorem reqInv_setStart (now : Time) (e : Nat) (s : RPSState) :
    ReqInv s → ReqInv (rpsSetStart now e s) := by
  intro h n
  rw [rpsSetStart_consumed, rpsSetStart_required]
  exact h n

theorem reqInv_enqueue (now : Time) (e : Nat) (s : RPSState) :
    ReqInv s → ReqInv (rpsEnqueue now e s).1 := by
  intro h n
  rw [rpsEnqueue_reqs]
  exact h n

theorem reqInv_fillCpu (now : Time) (e : Nat) (s : RPSState) :
    ReqInv s → ReqInv (rpsFillCpu now e s).1 := by
  intro hInv
  unfold rpsFillCpu
  split
  · cases hA : s.active with
    | nil => exact hInv
    | cons hd rest =>
      intro n
      simp only [setReq]
      by_cases hn : n = hd
      · subst hn
        have h1 := hInv n
        have h2 := min_le_left (cpuSecondsRemaining (s.reqs n)) quantumNs
        simp only [if_pos rfl, if_true]
        unfold cpuSecondsRemaining
        unfold cpuSecondsRemaining at h2
        linarith
      · simp only [if_neg hn]
        exact hInv n
  · exact hInv

theorem reqInv_add (now : Time) (e : Nat) (s : RPSState) :
    ReqInv s → ReqInv (rpsAdd now e s).1 := by
  intro h
  exact reqInv_fillCpu now e _ (reqInv_enqueue now e _ (reqInv_setStart now e s h))

theorem reqInv_step (s s' : RPSState) (hs : RpsStep s s') :
    ReqInv s → ReqInv s' := by
  intro h
  cases hs with
  | admission now e s => exact reqInv_add now e s h
  | interrupt now hd t s hc => exact reqInv_add now hd _ (fun n => h n)
  | complete s =>
    unfold rpsRemove
    cases ht : s.terminated with
    | nil => exact h
    | cons hd t => exact fun n => h n

/-- C3: in every state of the processing stock reachable from a state
whose requests all satisfy the CPU budget (as freshly created requests
do, with `cpuSecondsConsumed = 0`), every request satisfies
`cpuSecondsConsumed ≤ cpuSecondsRequired`: the only mutation of
`cpuSecondsConsumed` adds `min(cpuSecondsRemaining, 200ms)`, which can
never push it past `cpuSecondsRequired`. -/
theorem c3_cpu_budget_invariant (s s' : RPSState) (hr : RpsReach s s')
    (hInv : ReqInv s) : ReqInv s' := by
  induction hr with
  | refl => exact hInv
  | tail _ hstep ih => exact reqInv_step _ _ hstep ih

/-- An initial processing-stock state: empty sub-stocks, every request as
minted by NewRequestEntity (100ms required, nothing consumed, no start
time). -/
def initReqState : RPSState :=
  ⟨fun _ => ⟨100000000, 0, none⟩, [], [], [], []⟩

/-- Witness for C3: after admitting request 0 into the initial state, its
consumed CPU-seconds do not exceed its required CPU-seconds. -/
theorem c3_cpu_budget_invariant_witness :
    (((rpsAdd 0 0 initReqState).1.reqs 0).cpuSecondsConsumed ≤
      ((rpsAdd 0 0 initReqState).1.reqs 0).cpuSecondsRequired) :=
  c3_cpu_budget_invariant initReqState _
    (Relation.ReflTransGen.single (RpsStep.admission 0 0 initReqState))
    (fun _ => show (0 : Int) ≤ 100000000 by norm_num) 0

theorem onCpu_add (now : Time) (e : Nat) (s : RPSState) :
    (rpsAdd now e s).1.onCpu = s.onCpu ∨
      (s.onCpu = [] ∧ (rpsAdd now e s).1.onCpu = [e]) := by
  have h1 := rpsSetStart_onCpu now e s
  have h2 := rpsEnqueue_onCpu now e (rpsSetStart now e s)
  have h3 := rpsFillCpu_onCpu now e (rpsEnqueue now e (rpsSetStart now e s)).1
  show (rpsFillCpu now e (rpsEnqueue now e (rpsSetStart now e s)).1).1.onCpu = _ ∨ _
  rcases h3 with h3 | ⟨h3a, h3b⟩
  · exact Or.inl (by rw [h3, h2, h1])
  · exact Or.inr ⟨by rw [← h1, ← h2]; exact h3a, h3b⟩

theorem onCpuLen_step (s s' : RPSState) (hs : RpsStep s s')
    (h : s.onCpu.length ≤ 1) : s'.onCpu.length ≤ 1 := by
  cases hs with
  | admission now e s =>
    rcases onCpu_add now e s with he | ⟨_, he⟩ <;> rw [he]
    · exact h
    · simp
  | interrupt now hd t s hc =>
    rcases onCpu_add now hd { s with onCpu := t } with he | ⟨_, he⟩ <;> rw [he]
    · rw [hc] at h
      simp only [List.length_cons] at h
      show t.length ≤ 1
      omega
    · simp
  | complete s =>
    unfold rpsRemove
    cases ht : s.terminated <;> simpa using h

/-- C4: in every state of the processing stock reachable from a state
whose onCpu sub-stock holds at most one entity (in particular the empty
initial state), the onCpu sub-stock still holds at most one entity: the
CPU is only filled when `onCpu.Count() == 0`, and each interrupt first
removes the running entity. -/
theorem c4_oncpu_singleton_invariant (s s' : RPSState) (hr : RpsReach s s')
    (hInv : s.onCpu.length ≤ 1) : s'.onCpu.length ≤ 1 := by
  induction hr with
  | refl => exact hInv
  | tail _ hstep ih => exact onCpuLen_step _ _ hstep ih

/-- Witness for C4: after admitting request 0 into the initial state, the
onCpu sub-stock holds at most one entity. -/
theorem c4_oncpu_singleton_invariant_witness :
    (rpsAdd 0 0 initReqState).1.onCpu.length ≤ 1 :=
  c4_oncpu_singleton_invariant initReqState _
    (Relation.ReflTransGen.single (RpsStep.admission 0 0 initReqState))
    (by decide)

/-! ## Concrete states used to evaluate the code -/

/-- Two requests: request 0 needs 500ms of CPU, request 1 needs 300ms;
neither has consumed anything. -/
def twoReqs : Nat → Req := fun n =>
  if n = 0 then ⟨500000000, 0, some 0⟩
  else if n = 1 then ⟨300000000, 0, some 0⟩
  else default

/-- The processing stock at the moment an `interrupt_process` movement
re-adds request 0: the kernel has just removed it from `processesOnCpu`
(now empty) while request 1 waits in `processesActive`. -/
def c1State : RPSState := ⟨twoReqs, [1], [], [], []⟩

/-- C1: the claim attributes the quantum, the `cpuSecondsConsumed` charge
and the `interrupt_process` movement to the request that is moved onto the
CPU.  Evaluating `Add` at `c1State` with request 0 shows the divergence:
the entity placed in `processesOnCpu` is request 0 (the Add argument),
yet the quantum `min(300ms, 200ms) = 200ms` was computed from and charged
to request 1 (the popped head of `processesActive`), request 0's
`cpuSecondsConsumed` stays 0, and request 0 is simultaneously still in
`processesActive`. -/
theorem c1_cpu_fill_places_argument_on_cpu :
    (rpsAdd 0 0 c1State).1.onCpu = [0] ∧
    ((rpsAdd 0 0 c1State).1.reqs 0).cpuSecondsConsumed = 0 ∧
    ((rpsAdd 0 0 c1State).1.reqs 1).cpuSecondsConsumed = 200000000 ∧
    (rpsAdd 0 0 c1State).1.active = [0] ∧
    (rpsAdd 0 0 c1State).2 =
      [⟨"interrupt_process", 200000000, RpsLoc.onCpuSub, RpsLoc.procStock⟩] := by
  refine ⟨rfl, rfl, rfl, rfl, rfl⟩

/-- Witness for C2: admitting request 0 (100ms of CPU required, none
consumed) leaves the terminated sub-stock untouched. -/
theorem c2_admission_branches_witness :
    (rpsAdd 0 0 initReqState).1.terminated = initReqState.terminated :=
  ((c2_admission_branches 0 0 initReqState).1 (by decide)).2

/-- An initial state whose request 0 requires no CPU at all, so admission
routes it straight to the terminated sub-stock. -/
def zeroReqState : RPSState :=
  ⟨fun _ => ⟨0, 0, none⟩, [], [], [], []⟩

/-- C8 counterexample: after admitting the already-finished request 0,
the stock holds one entity (it sits in `processesTerminated` and is what
`Remove` returns), yet `Count()` reports 0, because Count sums only
`processesActive` and `processesOnCpu`. -/
theorem c8_count_excludes_terminated_cex :
    rpsCount (rpsAdd 0 0 zeroReqState).1 = 0 ∧
    rpsHoldings (rpsAdd 0 0 zeroReqState).1 = [0] ∧
    (rpsRemove (rpsAdd 0 0 zeroReqState).1).1 = some 0 ∧
    rpsCount (rpsAdd 0 0 zeroReqState).1 ≠
      (rpsHoldings (rpsAdd 0 0 zeroReqState).1).length := by
  exact ⟨rfl, rfl, rfl, by decide⟩

/-- C8 amended: `Count()` equals the number of entities in the active and
onCpu sub-stocks; entities in the terminated sub-stock are still held by
the stock (they leave only through `Remove`) but are not counted, so
Count falls short of the holdings by exactly the terminated count. -/
theorem c8_count_amended (s : RPSState) :
    rpsCount s + s.terminated.length = (rpsHoldings s).length := by
  unfold rpsCount rpsHoldings
  simp [List.length_append]
  omega

/-- C10: `EntitiesInStock` builds its slice with
`make([]*Entity, active.Count()+onCpu.Count())` and then appends the
entity references, so the result has twice the combined count as length
and its first half is all nil pointers. -/
theorem c10_entities_in_stock_shape (s : RPSState) :
    (rpsEntitiesInStock s).length = 2 * (s.active.length + s.onCpu.length) ∧
    (rpsEntitiesInStock s).take (s.active.length + s.onCpu.length) =
      List.replicate (s.active.length + s.onCpu.length) (none : Option Nat) := by
  constructor
  · unfold rpsEntitiesInStock
    simp [List.length_append]
    ring
  · unfold rpsEntitiesInStock
    rw [List.append_assoc]
    calc (List.replicate (s.active.length + s.onCpu.length) (none : Option Nat) ++
            (s.active.map some ++ s.onCpu.map some)).take
              (s.active.length + s.onCpu.length)
        = (List.replicate (s.active.length + s.onCpu.length) (none : Option Nat) ++
            (s.active.map some ++ s.onCpu.map some)).take
              (List.replicate (s.active.length + s.onCpu.length)
                (none : Option Nat)).length := by
          rw [List.length_replicate]
      _ = List.replicate (s.active.length + s.onCpu.length) (none : Option Nat) :=
          List.take_left _ _

/-! ## The movement priority queue (part_000, package newsimulator)

`movementPQ` wraps a client-go `cache.Heap` keyed by `occursAtToKey` and
ordered by `leftMovementIsEarlier`.  The heap itself is a third-party
dependency; it is modelled as a list kept sorted by occurrence time, with
`GetByKey` as a key search and `Add` as ordered insertion. -/

/-- A pending movement as seen by the queue: its kind label and its
`OccursAt().UnixNano()` timestamp. -/
structure QMovement where
  kind : String
  occursAt : Time
  deriving DecidableEq, Repr

/-- occursAtToKey (part_000 lines 191-194) renders `OccursAt().UnixNano()`
in decimal with `strconv.FormatInt`; that rendering is injective, so the
key is modelled as the nanosecond value itself. -/
def occursAtToKey (m : QMovement) : Time :=
  m.occursAt

/-- Ordered insertion into the pending heap, placing the new movement
before the first pending movement that is not earlier
(`leftMovementIsEarlier`, part_000 lines 196-201). -/
def heapAdd (m : QMovement) : List QMovement → List QMovement
  | [] => [m]
  | x :: xs =>
    if m.occursAt ≤ x.occursAt then m :: x :: xs else x :: heapAdd m xs

/-- Failure modes of EnqueueMovement. -/
inductive EnqueueError
  | duplicateTimestamp
  deriving DecidableEq, Repr

/-- movementPQ.EnqueueMovement (part_000 lines 133-153): computes the key
of the new movement, fails when a pending movement already has that key
(leaving the heap untouched), and otherwise adds the movement to the
heap.  The result pairs the returned error, if any, with the heap state
after the call. -/
def enqueueMovement (m : QMovement) (q : List QMovement) :
    Option EnqueueError × List QMovement :=
  if q.any (fun x => occursAtToKey x == occursAtToKey m) then
    (some EnqueueError.duplicateTimestamp, q)
  else
    (none, heapAdd m q)

theorem heapAdd_perm (m : QMovement) (q : List QMovement) :
    (heapAdd m q).Perm (m :: q) := by
  induction q with
  | nil => exact List.Perm.refl _
  | cons x xs ih =>
    unfold heapAdd
    split
    · exact List.Perm.refl _
    · exact (List.Perm.cons x ih).trans (List.Perm.swap m x xs)

theorem mem_heapAdd (y m : QMovement) (q : List QMovement) :
    y ∈ heapAdd m q ↔ y = m ∨ y ∈ q := by
  rw [(heapAdd_perm m q).mem_iff]
  exact List.mem_cons

theorem heapAdd_sorted (m : QMovement) (q : List QMovement)
    (h : q.Pairwise (fun a b => a.occursAt ≤ b.occursAt)) :
    (heapAdd m q).Pairwise (fun a b => a.occursAt ≤ b.occursAt) := by
  induction q with
  | nil => simp [heapAdd]
  | cons x xs ih =>
    rcases List.pairwise_cons.mp h with ⟨hx, hxs⟩
    unfold heapAdd
    split
    · rename_i hle
      refine List.Pairwise.cons ?_ h
      intro y hy
      rcases List.mem_cons.mp hy with rfl | hyxs
      · exact hle
      · exact le_trans hle (hx y hyxs)
    · rename_i hgt
      have hxm : x.occursAt ≤ m.occursAt := le_of_lt (not_le.mp hgt)
      refine List.Pairwise.cons ?_ (ih hxs)
      intro y hy
      rcases (mem_heapAdd y m xs).mp hy with rfl | hyxs
      · exact hxm
      · exact hx y hyxs

theorem heapAdd_distinct (m : QMovement) (q : List QMovement)
    (hnew : ∀ x ∈ q, x.occursAt ≠ m.occursAt)
    (h : q.Pairwise (fun a b => a.occursAt ≠ b.occursAt)) :
    (heapAdd m q).Pairwise (fun a b => a.occursAt ≠ b.occursAt) := by
  refine ((heapAdd_perm m q).pairwise_iff (fun hab => Ne.symm hab)).mpr ?_
  refine List.Pairwise.cons ?_ h
  intro y hy
  exact Ne.symm (hnew y hy)

/-- C5: EnqueueMovement fails with the duplicate-timestamp error (and
inserts nothing) exactly when another pending movement has the same
`OccursAt` nanosecond key; otherwise it inserts the movement into the
pending heap (a permutation of the old queue plus the movement, kept
ordered by `OccursAt`), preserving the at-most-one-movement-per-nanosecond
invariant. -/
theorem c5_enqueue_duplicate_timestamp (m : QMovement) (q : List QMovement) :
    ((∃ x ∈ q, x.occursAt = m.occursAt) →
      enqueueMovement m q = (some EnqueueError.duplicateTimestamp, q)) ∧
    ((∀ x ∈ q, x.occursAt ≠ m.occursAt) →
      enqueueMovement m q = (none, heapAdd m q) ∧
      (heapAdd m q).Perm (m :: q) ∧
      (q.Pairwise (fun a b => a.occursAt ≤ b.occursAt) →
        (heapAdd m q).Pairwise (fun a b => a.occursAt ≤ b.occursAt)) ∧
      (q.Pairwise (fun a b => a.occursAt ≠ b.occursAt) →
        (heapAdd m q).Pairwise (fun a b => a.occursAt ≠ b.occursAt))) := by
  constructor
  · intro hdup
    unfold enqueueMovement
    rw [if_pos]
    rw [List.any_eq_true]
    rcases hdup with ⟨x, hxq, hx⟩
    exact ⟨x, hxq, by simp [occursAtToKey, hx]⟩
  · intro hnew
    have hany : q.any (fun x => occursAtToKey x == occursAtToKey m) = false := by
      rw [List.any_eq_false]
      intro x hxq
      simp [occursAtToKey]
      exact hnew x hxq
    refine ⟨by unfold enqueueMovement; rw [hany]; rfl,
      heapAdd_perm m q,
      heapAdd_sorted m q,
      heapAdd_distinct m q hnew⟩

/-- Witness for C5: with a movement pending at nanosecond 5, enqueueing a
second movement at nanosecond 5 fails with the duplicate-timestamp
error. -/
theorem c5_enqueue_duplicate_timestamp_witness :
    enqueueMovement ⟨"interrupt_process", 5⟩ [⟨"complete_request", 5⟩] =
      (some EnqueueError.duplicateTimestamp, [⟨"complete_request", 5⟩]) :=
  (c5_enqueue_duplicate_timestamp ⟨"interrupt_process", 5⟩
    [⟨"complete_request", 5⟩]).1 (by decide)

/-! ## The autoscaler ticktock stock (src/pkg/model/autoscaler_ticktock.go) -/

/-- Stocks named by the movements the tick body schedules. -/
inductive TickLoc
  | desiredSource
  | desiredStock
  | desiredSink
  deriving DecidableEq, Repr

/-- A movement scheduled by the tick body. -/
structure TickMovement where
  kind : String
  occursAt : Time
  src : TickLoc
  dst : TickLoc
  deriving DecidableEq, Repr

/-- The scale-delta part of autoscalerTicktockStock.Add (lines 70-97):
given the policy's desired replica count and the current Desired stock
count, returns how many fresh Desired entities are added to
`desiredSource` and the movements handed to `env.AddToSchedule`, in
order. -/
def ticktockScale (now : Time) (desired : Int) (desiredCount : Nat) :
    Nat × List TickMovement :=
  let delta : Int := desired - (desiredCount : Int)
  if 0 < delta then
    (delta.toNat,
     List.replicate delta.toNat
       ⟨"increase_desired", now + 1, TickLoc.desiredSource, TickLoc.desiredStock⟩)
  else if delta < 0 then
    (0,
     List.replicate (-delta).toNat
       ⟨"reduce_desired", now + 1, TickLoc.desiredStock, TickLoc.desiredSink⟩)
  else
    (0, [])

/-- C6: on a tick with `delta = desired - Desired().Count()`, a positive
delta creates `delta` fresh Desired entities in the desired source and
schedules `delta` `increase_desired` movements from the desired source to
the Desired stock at `now + 1ns`; a negative delta creates nothing and
schedules `|delta|` `reduce_desired` movements from the Desired stock to
the desired sink at `now + 1ns`; a zero delta creates and schedules
nothing. -/
theorem c6_ticktock_scale_delta (now : Time) (desired : Int)
    (desiredCount : Nat) :
    (0 < desired - (desiredCount : Int) →
      (ticktockScale now desired desiredCount).1 =
        (desired - (desiredCount : Int)).toNat ∧
      (ticktockScale now desired desiredCount).2 =
        List.replicate (desired - (desiredCount : Int)).toNat
          ⟨"increase_desired", now + 1, TickLoc.desiredSource, TickLoc.desiredStock⟩ ∧
      (ticktockScale now desired desiredCount).2.length =
        (desired - (desiredCount : Int)).toNat) ∧
    (desired - (desiredCount : Int) < 0 →
      (ticktockScale now desired desiredCount).1 = 0 ∧
      (ticktockScale now desired desiredCount).2 =
        List.replicate (-(desired - (desiredCount : Int))).toNat
          ⟨"reduce_desired", now + 1, TickLoc.desiredStock, TickLoc.desiredSink⟩ ∧
      (ticktockScale now desired desiredCount).2.length =
        (desired - (desiredCount : Int)).natAbs) ∧
    (desired - (desiredCount : Int) = 0 →
      (ticktockScale now desired desiredCount).1 = 0 ∧
      (ticktockScale now desired desiredCount).2 = []) := by
  refine ⟨?_, ?_, ?_⟩ <;> intro h
  · unfold ticktockScale
    rw [if_pos h]
    refine ⟨rfl, rfl, ?_⟩
    simp [List.length_replicate]
  · unfold ticktockScale
    rw [if_neg (by omega), if_pos h]
    refine ⟨rfl, rfl, ?_⟩
    simp [List.length_replicate]
    omega
  · unfold ticktockScale
    rw [if_neg (by omega), if_neg (by omega)]
    exact ⟨rfl, rfl⟩

/-- Witness for C6: a tick reading `desired = 3` against an empty Desired
stock creates three entities and schedules three `increase_desired`
movements at `now + 1ns`. -/
theorem c6_ticktock_scale_delta_witness :
    (ticktockScale 0 3 0).1 = 3 ∧
    (ticktockScale 0 3 0).2 =
      List.replicate 3
        ⟨"increase_desired", 1, TickLoc.desiredSource, TickLoc.desiredStock⟩ := by
  have h := (c6_ticktock_scale_delta 0 3 0).1 (by norm_num)
  exact ⟨by simpa using h.1, by simpa using h.2.1⟩

/-! ## The sliding-window CPU usage record (part_004 lines 30-67) -/

/-- cpuUsage.trim: walk `activeTimeSlices` in order, dropping every
interval whose end is before `now - window` and replacing the start of an
interval that begins before `now - window` with `now - window`. -/
def trim (now : Time) (window : Duration) (slices : List (Time × Time)) :
    List (Time × Time) :=
  slices.filterMap fun t =>
    if t.2 < now - window then none
    else if t.1 < now - window then some (now - window, t.2)
    else some t

/-- cpuUsage.usage: trim, then divide the summed interval lengths in
nanoseconds by the window length (the float64 division is modelled
exactly over the rationals).  No clamping is applied anywhere. -/
def usage (now : Time) (window : Duration) (slices : List (Time × Time)) : ℚ :=
  (((trim now window slices).map fun a => a.2 - a.1).sum : ℤ) / (window : ℚ)

theorem trim_eq (now : Time) (window : Duration)
    (slices : List (Time × Time)) :
    trim now window slices =
      (slices.filter fun t => now - window ≤ t.2).map
        fun t => (max t.1 (now - window), t.2) := by
  induction slices with
  | nil => rfl
  | cons t ts ih =>
    by_cases h1 : t.2 < now - window
    · simp only [trim, List.filterMap_cons, List.filter_cons] at ih ⊢
      simp [h1, not_le.mpr h1, ih]
    · by_cases h2 : t.1 < now - window
      · simp only [trim, List.filterMap_cons, List.filter_cons] at ih ⊢
        simp [h1, h2, not_lt.mp h1, max_eq_right (le_of_lt h2), ih]
      · simp only [trim, List.filterMap_cons, List.filter_cons] at ih ⊢
        simp [h1, h2, not_lt.mp h1, max_eq_left (not_lt.mp h2), ih]

/-- A reachable interval log: 76 back-to-back 200ms quanta, as recorded
for a request requiring at least 15.2s of CPU that is rescheduled at
every interrupt from t = 0 on.  At the last scheduling, at t = 15s, the
log covers [0s, 15.2s]. -/
def c7Slices : List (Time × Time) :=
  (List.range 76).map fun k =>
    (200000000 * (k : Int), 200000000 * ((k : Int) + 1))

set_option maxRecDepth 4000 in
/-- C7 counterexample: sampling the 15s-window usage at t = 15s over the
log `c7Slices` yields 76/75 > 1 — the in-flight quantum's future portion
is counted in full and the code never clamps the result to [0, 1]. -/
theorem c7_usage_exceeds_one :
    1 < usage 15000000000 15000000000 c7Slices := by
  have hsum : (((trim 15000000000 15000000000 c7Slices).map
      fun a => a.2 - a.1).sum : ℤ) = 15200000000 := by decide
  unfold usage
  rw [hsum]
  norm_num

/-- C7 amended: trim keeps exactly the intervals whose end is at or after
`now - window`, clamping their start to at least `now - window`; usage is
the summed length of the surviving intervals divided by the window; the
result is nonnegative for well-formed intervals, but it is not clamped
and can exceed 1 (see the counterexample). -/
theorem c7_trim_usage_amended (now : Time) (window : Duration)
    (slices : List (Time × Time)) (hw : 0 < window)
    (hwf : ∀ t ∈ slices, t.1 ≤ t.2) :
    (∀ u, u ∈ trim now window slices ↔
      ∃ t, t ∈ slices ∧ now - window ≤ t.2 ∧
        u = (max t.1 (now - window), t.2)) ∧
    usage now window slices =
      (((slices.filter fun t => now - window ≤ t.2).map
          fun t => t.2 - max t.1 (now - window)).sum : ℤ) / (window : ℚ) ∧
    0 ≤ usage now window slices := by
  have hmap : ((slices.filter fun t => now - window ≤ t.2).map
        (fun t => (max t.1 (now - window), t.2))).map (fun a => a.2 - a.1) =
      (slices.filter fun t => now - window ≤ t.2).map
        fun t => t.2 - max t.1 (now - window) := by
    rw [List.map_map]
    rfl
  have husage : usage now window slices =
      (((slices.filter fun t => now - window ≤ t.2).map
          fun t => t.2 - max t.1 (now - window)).sum : ℤ) / (window : ℚ) := by
    unfold usage
    rw [trim_eq, hmap]
  refine ⟨?_, husage, ?_⟩
  · intro u
    rw [trim_eq]
    simp only [List.mem_map, List.mem_filter, decide_eq_true_eq]
    constructor
    · rintro ⟨t, ⟨hts, htc⟩, rfl⟩
      exact ⟨t, hts, htc, rfl⟩
    · rintro ⟨t, hts, htc, rfl⟩
      exact ⟨t, ⟨hts, htc⟩, rfl⟩
  · rw [husage]
    have hsum : 0 ≤ ((slices.filter fun t => now - window ≤ t.2).map
        fun t => t.2 - max t.1 (now - window)).sum := by
      apply List.sum_nonneg
      intro x hx
      rcases List.mem_map.mp hx with ⟨t, ht, rfl⟩
      rcases List.mem_filter.mp ht with ⟨hts, htc⟩
      have hc : now - window ≤ t.2 := by simpa using htc
      have hm : max t.1 (now - window) ≤ t.2 := max_le (hwf t hts) hc
      linarith
    apply div_nonneg
    · exact_mod_cast hsum
    · exact_mod_cast le_of_lt hw

/-- Witness for C7 amended: one well-formed interval over a positive
window gives a nonnegative usage. -/
theorem c7_trim_usage_amended_witness :
    0 ≤ usage 0 15000000000 [((-5 : Int), (10 : Int))] :=
  (c7_trim_usage_amended 0 15000000000 [((-5 : Int), (10 : Int))]
    (by norm_num) (by decide)).2.2

/-! ## Autoscaler tick CPU-utilization sample
(autoscaler_ticktock.go lines 105-119) -/

/-- The capacity fields of an active replica entity that
`calculateCPUUtilization` reads (the float64 arithmetic is modelled
exactly over the rationals). -/
structure ReplicaCPU where
  occupiedCPUCapacityMillisPerSecond : ℚ
  totalCPUCapacityMillisPerSecond : ℚ
  deriving DecidableEq, Repr

/-- calculateCPUUtilization: walks the active replicas, accumulating
`occupied * 100 / total` per replica, and appends the average to the
Environment only when there is at least one active replica; `none`
models that no sample is appended. -/
def calculateCPUUtilization (rs : List ReplicaCPU) : Option ℚ :=
  let totalCPUUtilization := (rs.map fun r =>
    r.occupiedCPUCapacityMillisPerSecond * 100 /
      r.totalCPUCapacityMillisPerSecond).sum
  if 0 < rs.length then some (totalCPUUtilization / (rs.length : ℚ)) else none

/-- C9 counterexample: with one active replica (occupied 500, total 1000)
the appended sample is 50 — the utilization expressed as a percentage —
not the mean ratio 1/2 the claim states; and with no active replicas no
sample is appended at all. -/
theorem c9_cpu_utilization_cex :
    calculateCPUUtilization [⟨500, 1000⟩] = some 50 ∧
    calculateCPUUtilization [⟨500, 1000⟩] ≠
      some (((500 : ℚ) / 1000 : ℚ)) ∧
    calculateCPUUtilization [] = none := by
  refine ⟨?_, ?_, rfl⟩
  · unfold calculateCPUUtilization
    norm_num
  · unfold calculateCPUUtilization
    norm_num

theorem sum_percent_ratio (rs : List ReplicaCPU) :
    (rs.map fun r =>
      r.occupiedCPUCapacityMillisPerSecond * 100 /
        r.totalCPUCapacityMillisPerSecond).sum =
      100 * (rs.map fun r =>
        r.occupiedCPUCapacityMillisPerSecond /
          r.totalCPUCapacityMillisPerSecond).sum := by
  induction rs with
  | nil => simp
  | cons r rest ih =>
    simp only [List.map_cons, List.sum_cons, ih]
    ring

/-- C9 amended: on a tick with at least one active replica the appended
sample equals 100 times the mean over the active replicas of
`occupiedCPUCapacity / totalCPUCapacity` (a percentage); on a tick with
no active replicas nothing is appended. -/
theorem c9_cpu_utilization_amended (rs : List ReplicaCPU) (h : rs ≠ []) :
    calculateCPUUtilization rs =
      some (100 * ((rs.map fun r =>
        r.occupiedCPUCapacityMillisPerSecond /
          r.totalCPUCapacityMillisPerSecond).sum / (rs.length : ℚ))) := by
  unfold calculateCPUUtilization
  rw [if_pos (List.length_pos.mpr h)]
  congr 1
  rw [sum_percent_ratio, mul_div_assoc]

/-- Witness for C9 amended: one replica at half capacity yields the
sample 50 (percent). -/
theorem c9_cpu_utilization_amended_witness :
    calculateCPUUtilization [⟨200, 400⟩] = some 50 := by
  rw [c9_cpu_utilization_amended [(⟨200, 400⟩ : ReplicaCPU)] (by decide)]
  norm_num

end Skenario
